import Mathlib

/-!
# OpenChisel: depth-image sample buffer, server frustum settings, integrator

A shallow embedding of `open_chisel/camera/DepthImage.h` and of the inline
accessors of `chisel_ros/ChiselServer.h`, with the properties the
specification states about them.  The projection integrator and the chunk
store, which `ChiselServer.h` only declares, are modelled from the
specification.

Conventions of the embedding:

* a C++ `int` is a Lean `Int`; every arithmetic result of type `int` is passed
  through `wrapInt32`, the two's-complement reduction to 32 bits.  Comparisons
  never overflow and are taken as they are;
* the pointer `data` is `Option (List α)`: `none` is `nullptr`, `some buf` is a
  buffer of `buf.length` samples.  Reading or writing outside the buffer, or
  through `nullptr`, has no defined result and is `none`.
-/

namespace chisel

variable {α : Type}

/-! ## Machine integers -/

/-- Two's-complement reduction of an integer to the range of a 32-bit `int`. -/
def wrapInt32 (x : Int) : Int := (x + 2147483648) % 4294967296 - 2147483648

/-! ## `float` arithmetic

A `float` is an IEEE 754 binary32 number and every `float` operation returns
the exact result rounded to the nearest binary32 number, ties to even.  Finite
binary32 numbers are rationals; the operations below are used on magnitudes
below `2^128` only, where rounding does not overflow. -/

/-- Nearest integer, ties to the even one. -/
def roundHalfEven (x : ℚ) : ℤ :=
  let f := ⌊x⌋
  let r := x - f
  if r < 1 / 2 then f else if 1 / 2 < r then f + 1 else if f % 2 = 0 then f else f + 1

/-- Exponent `e` of the binary32 binade of `x`, `2^e ≤ |x| < 2^(e+1)`, and
`-126` in the subnormal range. -/
def binary32Exponent (x : ℚ) : ℤ := max (Int.log 2 |x|) (-126)

/-- Rounding to binary32: the nearest multiple of `2^(e - 23)` (24 significant
bits), ties to even. -/
def roundToBinary32 (x : ℚ) : ℚ :=
  let ulp : ℚ := 2 ^ (binary32Exponent x - 23)
  roundHalfEven (x / ulp) * ulp

/-- Conversion `static_cast<float>(n)` for an unsigned integer `n`. -/
def castToFloat (n : Nat) : ℚ := roundToBinary32 n

/-- Division `a / b` on `float` operands. -/
def floatDiv (a b : ℚ) : ℚ := roundToBinary32 (a / b)

/-! ## `DepthImage` (DepthImage.h, lines 31-90) -/

/-- The three data members of `template <class DataType> class DepthImage`. -/
structure DepthImage (α : Type) where
  data : Option (List α)
  width : Int
  height : Int

namespace DepthImage

/-- Constructor `DepthImage()` (lines 34-38): null buffer, width and height `-1`. -/
def ctorDefault : DepthImage α :=
  { data := none, width := -1, height := -1 }

/-- Constructor `DepthImage(int w, int h)` (lines 40-44): `new DataType[width * height]`.
The product is an `int`; a negative length makes `new` throw, which is `none`.
The samples of a fresh array are indeterminate: `init` supplies them. -/
def ctor (w h : Int) (init : Nat → α) : Option (DepthImage α) :=
  let n := wrapInt32 (w * h)
  if n < 0 then none
  else some { data := some ((List.range n.toNat).map init), width := w, height := h }

/-- Member `Index(row, col)` (lines 52-55): `col + row * width` in `int` arithmetic. -/
def Index (img : DepthImage α) (row col : Int) : Int :=
  wrapInt32 (col + wrapInt32 (row * img.width))

/-- Member `At(row, col)` (lines 63-66): `data[Index(row, col)]`. -/
def At (img : DepthImage α) (row col : Int) : Option α :=
  match img.data with
  | none => none
  | some buf =>
    let i := img.Index row col
    if 0 ≤ i then buf[i.toNat]? else none

/-- Assignment `AtMutable(row, col) = v` (lines 68-71): the store through the reference
that `AtMutable` returns, `data[Index(row, col)] = v`. -/
def AtMutable (img : DepthImage α) (row col : Int) (v : α) : Option (DepthImage α) :=
  match img.data with
  | none => none
  | some buf =>
    let i := img.Index row col
    if 0 ≤ i ∧ i.toNat < buf.length then
      some { img with data := some (buf.set i.toNat v) }
    else none

/-- Member `DepthAt(row, col)` (lines 57-61) for an unsigned integer `DataType` whose
`std::numeric_limits<DataType>::max()` is `maxValue`:
`static_cast<float>(d) / static_cast<float>(max)` with `d = At(row, col)`. -/
def DepthAt (maxValue : Nat) (img : DepthImage Nat) (row col : Int) : Option ℚ :=
  match img.At row col with
  | none => none
  | some d => some (floatDiv (castToFloat d) (castToFloat maxValue))

/-- Member `IsInside(row, col)` (lines 73-76). -/
def IsInside (img : DepthImage α) (row col : Int) : Bool :=
  decide (row ≥ 0) && decide (row < img.width) && decide (col ≥ 0) && decide (col < img.height)

/-- Member `GetData()` (line 78). -/
def GetData (img : DepthImage α) : Option (List α) := img.data

/-- Member `SetData(d)` (line 80). -/
def SetData (img : DepthImage α) (d : Option (List α)) : DepthImage α := { img with data := d }

/-- Member `GetWidth()` (line 81). -/
def GetWidth (img : DepthImage α) : Int := img.width

/-- Member `GetHeight()` (line 82). -/
def GetHeight (img : DepthImage α) : Int := img.height

/-- Member `SetWidth(w)` (line 83). -/
def SetWidth (img : DepthImage α) (w : Int) : DepthImage α := { img with width := w }

/-- Member `SetHeight(h)` (line 84). -/
def SetHeight (img : DepthImage α) (h : Int) : DepthImage α := { img with height := h }

end DepthImage

/-! ## Projection integrator and chunk store

`ChiselServer.h` declares `SetupProjectionIntegrator`, `IntegrateLastDepthImage`,
`Reset` and `GetAllChunks` and holds a `chisel::ProjectionIntegrator` and a
`chisel::ChiselPtr`; the code behind them (`open_chisel/ProjectionIntegrator.h`,
`open_chisel/Chisel.h`, `ChiselServer.cpp`) is not part of the sources at hand.
The definitions of this section follow the specification (§3, §4.1, §4.3, §6).
The `float32` fields of a voxel are taken as exact rationals. -/

/-- Modelled from the spec: the voxel of §3, `{distance, weight}`; the voxel
type of `open_chisel` is missing.  `weight = 0` means never observed.  The
optional color is left out: the frames of this model are depth-only. -/
structure Voxel where
  distance : ℚ
  weight : ℚ
deriving DecidableEq, Repr

/-- Modelled from the spec: the options of `Configure` (§6) that the projection
integrator of §4.3 uses, set through `SetupProjectionIntegrator(truncator,
weight, useCarving, carvingDist)`; `ProjectionIntegrator` itself is missing.
`truncationDistance` is the truncator policy of §3, from the measured depth to
the width of the truncation band. -/
structure IntegratorConfig where
  truncationDistance : ℚ → ℚ
  incrementWeight : ℚ
  maxWeight : ℚ
  useCarving : Bool
  carvingDistance : ℚ

/-- Modelled from the spec: `clamp(x, lo, hi)` of §4.3 step 3. -/
def clamp (x lo hi : ℚ) : ℚ := if x < lo then lo else if hi < x then hi else x

/-- Modelled from the spec: §4.3 steps 2-3 for one voxel, the voxel update of the
missing `ProjectionIntegrator`.  `obs` is `none` when the projection of the
voxel center is outside the image bounds or the sampled depth is invalid, and
`some (sampledDepth, projectedVoxelDepth)` otherwise.  The result is `none`
when the voxel is left untouched and `some v'` when `v'` is written.

The three cases of step 3 are told apart by
`signedDistance = sampledDepth - projectedVoxelDepth` and taken as the spec
describes them.  The voxel "in front of an observed surface by more than the
truncation band", where the frame sees past the voxel
(`signedDistance > truncationDistance`), is the carving case; the voxel "far
behind the surface" (`signedDistance < -truncationDistance`) is untouched; the
band in between is averaged.  The two inequalities printed in step 3 carry the
opposite sign to this wording; the wording is what §8, §9 and the glossary
repeat (carving clears voxels that a later observation shows to be in free
space).  Carving needs the excess beyond the band to reach `carvingDistance`,
the "minimum excess beyond the truncation band required to carve" of §6, §9. -/
def voxelUpdate (cfg : IntegratorConfig) (v : Voxel) (obs : Option (ℚ × ℚ)) : Option Voxel :=
  match obs with
  | none => none
  | some (sampledDepth, projectedVoxelDepth) =>
    let signedDistance := sampledDepth - projectedVoxelDepth
    let t := cfg.truncationDistance sampledDepth
    if t < signedDistance then
      if cfg.useCarving = true ∧ v.weight ≠ 0 ∧ cfg.carvingDistance ≤ signedDistance - t then
        some { v with weight := 0 }
      else none
    else if signedDistance < -t then none
    else
      let newWeight := min (v.weight + cfg.incrementWeight) cfg.maxWeight
      let clampedSignedDistance := clamp signedDistance (-t) t
      some { distance := (v.distance * v.weight + clampedSignedDistance * cfg.incrementWeight)
                          / newWeight,
             weight := newWeight }

/-- Modelled from the spec: the voxel after §4.3 steps 2-3 (see `voxelUpdate`). -/
def integrateVoxel (cfg : IntegratorConfig) (v : Voxel) (obs : Option (ℚ × ℚ)) : Voxel :=
  (voxelUpdate cfg v obs).getD v

/-- Modelled from the spec: integer chunk coordinates (§3). -/
abbrev ChunkIndex := Int × Int × Int

/-- Modelled from the spec: the chunk of §3, a dense grid of voxels in a fixed
linear order with its `dirty` flag; the chunk type of `open_chisel` is missing.
The cached mesh is left out. -/
structure Chunk where
  voxels : List Voxel
  dirty : Bool
deriving DecidableEq, Repr

/-- Modelled from the spec: an axis-aligned box, `(min corner, max corner)`. -/
abbrev AABB := (ℚ × ℚ × ℚ) × (ℚ × ℚ × ℚ)

/-- Modelled from the spec: the chunk store of §3 and §4.1 (`chisel::Chisel`,
missing): the chunk dimensions and resolution fixed at creation, the mapping
from chunk index to chunk with unique keys, and the "latest" set. -/
structure ChunkStore where
  chunkDims : Nat × Nat × Nat
  resolution : ℚ
  chunks : List (ChunkIndex × Chunk)
  latest : List ChunkIndex

/-- Modelled from the spec: what one depth frame, its pose and the sensor model
give the integrator of §4.3 (the camera model and `ProjectionIntegrator` are
missing): the chunk indices whose box meets the viewing frustum (step 1) and,
for voxel `k` of chunk `idx`, the observation passed to `voxelUpdate` (step 2). -/
structure FrameView where
  candidates : List ChunkIndex
  observe : ChunkIndex → Nat → Option (ℚ × ℚ)

namespace ChunkStore

/-- Modelled from the spec: a store as created at startup (§3 lifecycle), with no chunk. -/
def create (chunkDims : Nat × Nat × Nat) (resolution : ℚ) : ChunkStore :=
  { chunkDims := chunkDims, resolution := resolution, chunks := [], latest := [] }

/-- Modelled from the spec: a chunk at creation, every voxel never observed. -/
def freshChunk (s : ChunkStore) : Chunk :=
  { voxels := List.replicate (s.chunkDims.1 * s.chunkDims.2.1 * s.chunkDims.2.2)
      { distance := 0, weight := 0 },
    dirty := false }

/-- Lookup in the mapping from chunk index to chunk. -/
def findChunk (m : List (ChunkIndex × Chunk)) (idx : ChunkIndex) : Option Chunk :=
  match m with
  | [] => none
  | (j, c) :: rest => if j = idx then some c else findChunk rest idx

/-- Binding `idx` to `c` in the mapping, replacing a previous binding. -/
def putChunk (m : List (ChunkIndex × Chunk)) (idx : ChunkIndex) (c : Chunk) :
    List (ChunkIndex × Chunk) :=
  match m with
  | [] => [(idx, c)]
  | (j, d) :: rest => if j = idx then (j, c) :: rest else (j, d) :: putChunk rest idx c

/-- Modelled from the spec: `TryGet(chunkIndex)` (§4.1), a probe without creation. -/
def TryGet (s : ChunkStore) (idx : ChunkIndex) : Option Chunk := findChunk s.chunks idx

/-- Modelled from the spec: `GetOrCreate(chunkIndex)` (§4.1): the chunk at `idx`,
created on a miss. -/
def GetOrCreate (s : ChunkStore) (idx : ChunkIndex) : Chunk × ChunkStore :=
  match findChunk s.chunks idx with
  | some c => (c, s)
  | none => (s.freshChunk, { s with chunks := putChunk s.chunks idx s.freshChunk })

/-- Modelled from the spec: `AllIndices()` (§4.1). -/
def AllIndices (s : ChunkStore) : List ChunkIndex := s.chunks.map Prod.fst

/-- Modelled from the spec: `Clear()` (§4.1) drops all chunks; the "latest" set,
a set of indices of chunks of the store, is emptied with them. -/
def Clear (s : ChunkStore) : ChunkStore := { s with chunks := [], latest := [] }

/-- Modelled from the spec: `Reset()` (§6) clears all chunk state, through
`Clear()` (§4.1); `ChiselServer::Reset` is only declared in `ChiselServer.h`. -/
def Reset (s : ChunkStore) : ChunkStore := s.Clear

/-- Modelled from the spec: the axis-aligned box of a chunk, derived from its
index, the chunk dimensions and the resolution (§3). -/
def chunkBounds (s : ChunkStore) (idx : ChunkIndex) : AABB :=
  let sx : ℚ := s.chunkDims.1 * s.resolution
  let sy : ℚ := s.chunkDims.2.1 * s.resolution
  let sz : ℚ := s.chunkDims.2.2 * s.resolution
  ((idx.1 * sx, idx.2.1 * sy, idx.2.2 * sz),
   ((idx.1 + 1) * sx, (idx.2.1 + 1) * sy, (idx.2.2 + 1) * sz))

/-- Modelled from the spec: `ListAllocatedChunkBounds()` (§6), the box of every
allocated chunk; `ChiselServer::GetAllChunks` is only declared. -/
def ListAllocatedChunkBounds (s : ChunkStore) : List AABB :=
  s.AllIndices.map s.chunkBounds

/-- Modelled from the spec: `ListLatestChunkBounds()` (§6). -/
def ListLatestChunkBounds (s : ChunkStore) : List AABB :=
  s.latest.map s.chunkBounds

end ChunkStore

/-- Modelled from the spec: §4.3 step 2 over the voxels of one chunk, voxel `k`
of the list being voxel `k + k0` of the chunk.  The flag tells whether a voxel
was written. -/
def integrateVoxels (cfg : IntegratorConfig) (obs : Nat → Option (ℚ × ℚ)) :
    Nat → List Voxel → List Voxel × Bool
  | _, [] => ([], false)
  | k0, v :: rest =>
    let r := integrateVoxels cfg obs (k0 + 1) rest
    match voxelUpdate cfg v (obs k0) with
    | none => (v :: r.1, r.2)
    | some v' => (v' :: r.1, true)

/-- Modelled from the spec: §4.3 steps 2-4 for one candidate chunk: the chunk is
fetched or created, its voxels are updated, and when a voxel was written the
chunk is marked dirty and joins the "latest" set. -/
def integrateChunk (cfg : IntegratorConfig) (frame : FrameView) (s : ChunkStore)
    (idx : ChunkIndex) : ChunkStore :=
  let (c, s1) := s.GetOrCreate idx
  let r := integrateVoxels cfg (frame.observe idx) 0 c.voxels
  { s1 with
    chunks := ChunkStore.putChunk s1.chunks idx { voxels := r.1, dirty := c.dirty || r.2 },
    latest := if r.2 then s1.latest ++ [idx] else s1.latest }

/-- Modelled from the spec: `IntegrateDepthFrame` (§6), the integration pass of
§4.3 over the candidate chunks of the frame, each index once; the "latest" set
starts empty for the pass.  `ChiselServer::IntegrateLastDepthImage` is only
declared. -/
def IntegrateDepthFrame (cfg : IntegratorConfig) (frame : FrameView) (s : ChunkStore) :
    ChunkStore :=
  frame.candidates.dedup.foldl (integrateChunk cfg frame) { s with latest := [] }

end chisel

namespace chisel_ros

/-! ## `ChiselServer` (ChiselServer.h, lines 55-236) -/

/-- The data members of `class ChiselServer` that its inline accessors read or
write.  `Cam` is the type of the member `cam` (`chisel::FisheyeCamera`, declared
outside this header) and `Dist` the type of the plane distances (`float`; the
accessors only copy such a value). -/
structure ChiselServer (Cam Dist : Type) where
  baseTransform : String
  meshTopic : String
  cam : Cam
  hasNewData : Bool
  nearPlaneDist : Dist
  farPlaneDist : Dist
  isPaused : Bool

namespace ChiselServer

variable {Cam Dist : Type}

/-- Member `GetNearPlaneDist()` (lines 158-161). -/
def GetNearPlaneDist (s : ChiselServer Cam Dist) : Dist := s.nearPlaneDist

/-- Member `GetFarPlaneDist()` (lines 162-165). -/
def GetFarPlaneDist (s : ChiselServer Cam Dist) : Dist := s.farPlaneDist

/-- Member `SetNearPlaneDist(dist)` (lines 166-169). -/
def SetNearPlaneDist (s : ChiselServer Cam Dist) (dist : Dist) : ChiselServer Cam Dist :=
  { s with nearPlaneDist := dist }

/-- Member `SetFarPlaneDist(dist)` (lines 170-174): `farPlaneDist = dist;
cam.setFarPlane(dist);`.  The member function `FisheyeCamera::setFarPlane` is
declared outside this header and is the parameter `setFarPlane`. -/
def SetFarPlaneDist (setFarPlane : Cam → Dist → Cam) (s : ChiselServer Cam Dist) (dist : Dist) :
    ChiselServer Cam Dist :=
  { s with farPlaneDist := dist, cam := setFarPlane s.cam dist }

end ChiselServer

end chisel_ros

namespace chisel

variable {α : Type}

/-! # Theorems -/

/-! ## Helper lemmas on `wrapInt32` and on row-major offsets -/

theorem wrapInt32_of_range (x : Int) (h0 : -2147483648 ≤ x) (h1 : x < 2147483648) :
    wrapInt32 x = x := by
  unfold wrapInt32
  omega

/-- For an in-bounds pixel the product `row * w` and the offset stay below `w * h`. -/
theorem offset_bounds (w h row col : Int)
    (hr0 : 0 ≤ row) (hr1 : row < h) (hc0 : 0 ≤ col) (hc1 : col < w) :
    0 ≤ row * w ∧ row * w + w ≤ w * h ∧ 0 ≤ col + row * w ∧ col + row * w < w * h := by
  have hw : 0 < w := by omega
  have h1 : 0 ≤ row * w := mul_nonneg hr0 hw.le
  have h2 : (row + 1) * w ≤ h * w := mul_le_mul_of_nonneg_right (by omega) hw.le
  have h3 : (row + 1) * w = row * w + w := by ring
  have h4 : h * w = w * h := by ring
  refine ⟨h1, by omega, by omega, by omega⟩

/-- With every offset below `w * h` representable, `Index` is the exact
row-major offset on in-bounds pixels. -/
theorem Index_eq_of_inBounds (img : DepthImage α) (row col : Int)
    (hsz : img.width * img.height ≤ 2147483648)
    (hr0 : 0 ≤ row) (hr1 : row < img.height) (hc0 : 0 ≤ col) (hc1 : col < img.width) :
    img.Index row col = col + row * img.width := by
  obtain ⟨h1, h2, h3, h4⟩ := offset_bounds img.width img.height row col hr0 hr1 hc0 hc1
  unfold DepthImage.Index
  rw [wrapInt32_of_range (row * img.width) (by omega) (by omega)]
  exact wrapInt32_of_range _ (by omega) (by omega)

/-- Two in-bounds pixels with the same exact row-major offset are the same pixel. -/
theorem rowMajor_injective (w row col row' col' : Int)
    (hc0 : 0 ≤ col) (hc1 : col < w) (hc0' : 0 ≤ col') (hc1' : col' < w)
    (h : col + row * w = col' + row' * w) : row = row' ∧ col = col' := by
  have hrow : row = row' := by
    rcases lt_trichotomy row row' with hlt | heq | hgt
    · exfalso
      have h1 : (row + 1) * w ≤ row' * w := mul_le_mul_of_nonneg_right (by omega) (by omega)
      have h2 : (row + 1) * w = row * w + w := by ring
      omega
    · exact heq
    · exfalso
      have h1 : (row' + 1) * w ≤ row * w := mul_le_mul_of_nonneg_right (by omega) (by omega)
      have h2 : (row' + 1) * w = row' * w + w := by ring
      omega
  subst hrow
  exact ⟨rfl, by omega⟩

/-- What `IsInside` computes: the row is compared with the width and the
column with the height. -/
theorem IsInside_iff (img : DepthImage α) (row col : Int) :
    img.IsInside row col = true ↔
      (0 ≤ row ∧ row < img.width) ∧ (0 ≤ col ∧ col < img.height) := by
  simp [DepthImage.IsInside, and_assoc]

/-! ## `IsInside` against the image bounds -/

/-- C1 (failing input). On the 2 x 1 image built by `DepthImage(2, 1)` (width 2,
height 1) `IsInside(1, 0)` is true although row 1 is not below the height, and
`IsInside(0, 1)` is false although pixel (0, 1) lies in row 0 < height and
column 1 < width: the code tests the row against the width and the column
against the height. -/
theorem IsInside_swaps_width_and_height :
    ∃ img : DepthImage Nat, DepthImage.ctor 2 1 (fun _ => 0) = some img ∧
      img.IsInside 1 0 = true ∧ ¬ ((0 : Int) ≤ 1 ∧ (1 : Int) < img.height ∧ (0 : Int) ≤ 0 ∧ 0 < img.width) ∧
      img.IsInside 0 1 = false ∧ ((0 : Int) ≤ 0 ∧ 0 < img.height ∧ (0 : Int) ≤ 1 ∧ 1 < img.width) := by
  refine ⟨_, rfl, ?_⟩
  decide

/-- C2 (failing input). On the image built by `DepthImage(2, 1)`, whose buffer
has 2 * 1 = 2 samples, `IsInside(1, 0)` is true and `Index(1, 0) = 2`, which is
not below `w * h = 2`: the guarded access `At(1, 0)` reads past the buffer. -/
theorem IsInside_guard_admits_offset_past_buffer :
    ∃ img : DepthImage Nat, DepthImage.ctor 2 1 (fun _ => 0) = some img ∧
      img.data = some [0, 0] ∧
      img.IsInside 1 0 = true ∧ img.Index 1 0 = 2 ∧
      ¬ (img.Index 1 0 < img.width * img.height) ∧ img.At 1 0 = none := by
  refine ⟨_, rfl, ?_⟩
  decide

/-- C6. An image whose width or height is not positive has no inside pixel:
`IsInside(row, col)` is false for all integers `row`, `col`.  The
default-constructed image (width = height = -1, null buffer) is such an image. -/
theorem IsInside_false_of_no_pixels (img : DepthImage α)
    (h : img.width ≤ 0 ∨ img.height ≤ 0) (row col : Int) :
    img.IsInside row col = false := by
  rw [← Bool.not_eq_true, IsInside_iff]
  omega

theorem IsInside_false_of_no_pixels_witness :
    ((DepthImage.ctorDefault : DepthImage Nat).width = -1 ∧
      (DepthImage.ctorDefault : DepthImage Nat).height = -1 ∧
      (DepthImage.ctorDefault : DepthImage Nat).data = none) ∧
    (DepthImage.ctorDefault : DepthImage Nat).IsInside 0 0 = false :=
  ⟨⟨rfl, rfl, rfl⟩,
   IsInside_false_of_no_pixels DepthImage.ctorDefault (Or.inl (by decide)) 0 0⟩

/-! ## `Index` as a row-major bijection -/

/-- C8 (counterexample). With width = height = 65536 (set through `SetWidth`
and `SetHeight`), pixel (32768, 0) is in bounds, yet `Index(32768, 0)` is
`32768 * 65536 = 2^31` reduced to an `int`, which is negative: the offset is
not in `[0, w * h)`. -/
theorem Index_negative_on_oversized_image :
    (((DepthImage.ctorDefault : DepthImage Nat).SetWidth 65536).SetHeight 65536).width = 65536 ∧
    (((DepthImage.ctorDefault : DepthImage Nat).SetWidth 65536).SetHeight 65536).height = 65536 ∧
    ((0 : Int) ≤ 32768 ∧ (32768 : Int) < 65536) ∧ ((0 : Int) ≤ 0 ∧ (0 : Int) < 65536) ∧
    (((DepthImage.ctorDefault : DepthImage Nat).SetWidth 65536).SetHeight 65536).Index 32768 0
      = -2147483648 ∧
    ¬ (0 ≤ (((DepthImage.ctorDefault : DepthImage Nat).SetWidth 65536).SetHeight 65536).Index
      32768 0) := by
  decide

/-- C8 (amended). For width `w > 0` and height `h > 0` with `w * h ≤ 2^31`
(every offset below `w * h` is a 32-bit `int`): (1) every in-bounds pixel has
`0 ≤ Index(row, col) < w * h`; (2) in-bounds pixels with equal `Index` are
equal; (3) every offset `k` with `0 ≤ k < w * h` is `Index(k / w, k % w)`, and
`(k / w, k % w)` is an in-bounds pixel. -/
theorem Index_rowMajor_bijection (img : DepthImage α)
    (hw : 0 < img.width) (_hh : 0 < img.height)
    (hsz : img.width * img.height ≤ 2147483648) :
    (∀ row col : Int, 0 ≤ row → row < img.height → 0 ≤ col → col < img.width →
      0 ≤ img.Index row col ∧ img.Index row col < img.width * img.height) ∧
    (∀ row col row' col' : Int, 0 ≤ row → row < img.height → 0 ≤ col → col < img.width →
      0 ≤ row' → row' < img.height → 0 ≤ col' → col' < img.width →
      img.Index row col = img.Index row' col' → row = row' ∧ col = col') ∧
    (∀ k : Int, 0 ≤ k → k < img.width * img.height →
      (0 ≤ k / img.width ∧ k / img.width < img.height) ∧
      (0 ≤ k % img.width ∧ k % img.width < img.width) ∧
      img.Index (k / img.width) (k % img.width) = k) := by
  refine ⟨?_, ?_, ?_⟩
  · intro row col hr0 hr1 hc0 hc1
    rw [Index_eq_of_inBounds img row col hsz hr0 hr1 hc0 hc1]
    obtain ⟨_, _, h3, h4⟩ := offset_bounds img.width img.height row col hr0 hr1 hc0 hc1
    exact ⟨h3, h4⟩
  · intro row col row' col' hr0 hr1 hc0 hc1 hr0' hr1' hc0' hc1' h
    rw [Index_eq_of_inBounds img row col hsz hr0 hr1 hc0 hc1,
      Index_eq_of_inBounds img row' col' hsz hr0' hr1' hc0' hc1'] at h
    exact rowMajor_injective img.width row col row' col' hc0 hc1 hc0' hc1' h
  · intro k hk0 hk1
    have hq0 : 0 ≤ k / img.width := Int.ediv_nonneg hk0 hw.le
    have hq1 : k / img.width < img.height :=
      Int.ediv_lt_of_lt_mul hw (by rw [mul_comm] at hk1; exact hk1)
    have hm0 : 0 ≤ k % img.width := Int.emod_nonneg k (by omega)
    have hm1 : k % img.width < img.width := Int.emod_lt_of_pos k hw
    refine ⟨⟨hq0, hq1⟩, ⟨hm0, hm1⟩, ?_⟩
    rw [Index_eq_of_inBounds img _ _ hsz hq0 hq1 hm0 hm1, mul_comm]
    exact Int.emod_add_ediv k img.width

theorem Index_rowMajor_bijection_witness :
    ((0 : Int) < 3 ∧ (0 : Int) < 2 ∧ (3 : Int) * 2 ≤ 2147483648) ∧
    ((⟨none, 3, 2⟩ : DepthImage Nat).Index 1 2 = 5 ∧
      (⟨none, 3, 2⟩ : DepthImage Nat).Index (5 / 3) (5 % 3) = 5) :=
  ⟨by decide,
   by
    have h := Index_rowMajor_bijection (⟨none, 3, 2⟩ : DepthImage Nat)
      (by decide) (by decide) (by decide)
    exact ⟨by decide, (h.2.2 5 (by decide) (by decide)).2.2⟩⟩

/-! ## Writing one sample -/

/-- The offset of an in-bounds pixel of a well-formed image addresses its buffer. -/
theorem Index_toNat_lt_length (img : DepthImage α) (buf : List α)
    (hlen : (buf.length : Int) = img.width * img.height)
    (hsz : img.width * img.height ≤ 2147483648) (row col : Int)
    (hr0 : 0 ≤ row) (hr1 : row < img.height) (hc0 : 0 ≤ col) (hc1 : col < img.width) :
    0 ≤ img.Index row col ∧ (img.Index row col).toNat < buf.length := by
  rw [Index_eq_of_inBounds img row col hsz hr0 hr1 hc0 hc1]
  obtain ⟨_, _, h3, h4⟩ := offset_bounds img.width img.height row col hr0 hr1 hc0 hc1
  exact ⟨h3, by omega⟩

/-- C9 (counterexample). An image of width = height = 65536 with a buffer of
`65536 * 65536` samples (set through `SetWidth`, `SetHeight`, `SetData`):
storing through `AtMutable(32768, 0)` addresses offset `2^31` reduced to an
`int`, a negative offset outside the buffer, so the store has no defined result
and `At(32768, 0)` does not read a sample of the buffer. -/
theorem AtMutable_undefined_on_oversized_image :
    ((((DepthImage.ctorDefault : DepthImage Nat).SetWidth 65536).SetHeight 65536).SetData
        (some (List.replicate 4294967296 0))
      = ⟨some (List.replicate 4294967296 0), 65536, 65536⟩) ∧
    (((List.replicate 4294967296 (0 : Nat)).length : Int) = 65536 * 65536) ∧
    ((0 : Int) ≤ 32768 ∧ (32768 : Int) < 65536 ∧ (0 : Int) ≤ 0 ∧ (0 : Int) < 65536) ∧
    (⟨some (List.replicate 4294967296 0), 65536, 65536⟩ : DepthImage Nat).AtMutable 32768 0 7
      = none ∧
    (⟨some (List.replicate 4294967296 0), 65536, 65536⟩ : DepthImage Nat).At 32768 0 = none := by
  have hI : ∀ buf : List Nat,
      (⟨some buf, 65536, 65536⟩ : DepthImage Nat).Index 32768 0 = -2147483648 := by
    intro buf
    show wrapInt32 (0 + wrapInt32 (32768 * 65536)) = -2147483648
    decide
  refine ⟨rfl, ?_, by decide, ?_, ?_⟩
  · rw [List.length_replicate]
    decide
  · simp only [DepthImage.AtMutable, hI]
    exact if_neg (fun h => absurd h.1 (by decide))
  · simp only [DepthImage.At, hI]
    exact if_neg (by decide)

/-- C9 (amended). For an image of width `w > 0` and height `h > 0` whose buffer
holds exactly `w * h` samples, with `w * h ≤ 2^31`, and in-bounds pixels
`(r, c)`, `(r', c')`: the store of `v` through `AtMutable(r, c)` is defined;
afterwards `At(r, c)` returns `v`, `At(r', c')` returns the value it returned
before whenever `(r', c') ≠ (r, c)`, and `GetWidth()`, `GetHeight()` are
unchanged. -/
theorem AtMutable_writes_one_sample (img : DepthImage α) (buf : List α)
    (hdata : img.data = some buf)
    (hlen : (buf.length : Int) = img.width * img.height)
    (_hw : 0 < img.width) (_hh : 0 < img.height)
    (hsz : img.width * img.height ≤ 2147483648)
    (r c r' c' : Int) (v : α)
    (hr0 : 0 ≤ r) (hr1 : r < img.height) (hc0 : 0 ≤ c) (hc1 : c < img.width)
    (hr0' : 0 ≤ r') (hr1' : r' < img.height) (hc0' : 0 ≤ c') (hc1' : c' < img.width) :
    ∃ img' : DepthImage α, img.AtMutable r c v = some img' ∧
      img'.At r c = some v ∧
      (∃ old : α, img.At r' c' = some old ∧ ((r', c') ≠ (r, c) → img'.At r' c' = some old)) ∧
      img'.GetWidth = img.GetWidth ∧ img'.GetHeight = img.GetHeight := by
  obtain ⟨hi0, hi1⟩ := Index_toNat_lt_length img buf hlen hsz r c hr0 hr1 hc0 hc1
  obtain ⟨hj0, hj1⟩ := Index_toNat_lt_length img buf hlen hsz r' c' hr0' hr1' hc0' hc1'
  refine ⟨{ img with data := some (buf.set (img.Index r c).toNat v) }, ?_, ?_, ?_, rfl, rfl⟩
  · simp only [DepthImage.AtMutable, hdata]
    rw [if_pos ⟨hi0, hi1⟩]
  · have hI : DepthImage.Index { img with data := some (buf.set (img.Index r c).toNat v) } r c
        = img.Index r c := rfl
    simp only [DepthImage.At, hI, if_pos hi0]
    simp [hi1]
  · refine ⟨buf[(img.Index r' c').toNat], ?_, ?_⟩
    · simp only [DepthImage.At, hdata, if_pos hj0]
      simp [hj1]
    · intro hne
      have hI : DepthImage.Index { img with data := some (buf.set (img.Index r c).toNat v) } r' c'
          = img.Index r' c' := rfl
      have hidx : (img.Index r c).toNat ≠ (img.Index r' c').toNat := by
        intro heq
        have heq' : img.Index r c = img.Index r' c' := by omega
        rw [Index_eq_of_inBounds img r c hsz hr0 hr1 hc0 hc1,
          Index_eq_of_inBounds img r' c' hsz hr0' hr1' hc0' hc1'] at heq'
        obtain ⟨e1, e2⟩ := rowMajor_injective img.width r c r' c' hc0 hc1 hc0' hc1' heq'
        exact hne (by rw [e1, e2])
      simp only [DepthImage.At, hI, if_pos hj0]
      rw [List.getElem?_set_ne hidx]
      simp [hj1]

theorem AtMutable_writes_one_sample_witness :
    ∃ img' : DepthImage Nat,
      (⟨some [10, 11, 12, 13, 14, 15], 3, 2⟩ : DepthImage Nat).AtMutable 1 0 7 = some img' ∧
      img'.At 1 0 = some 7 ∧
      (∃ old : Nat, (⟨some [10, 11, 12, 13, 14, 15], 3, 2⟩ : DepthImage Nat).At 0 2 = some old ∧
        (((0 : Int), (2 : Int)) ≠ (1, 0) → img'.At 0 2 = some old)) ∧
      img'.GetWidth = 3 ∧ img'.GetHeight = 2 :=
  AtMutable_writes_one_sample (⟨some [10, 11, 12, 13, 14, 15], 3, 2⟩ : DepthImage Nat)
    [10, 11, 12, 13, 14, 15] rfl (by decide) (by decide) (by decide) (by decide)
    1 0 0 2 7 (by decide) (by decide) (by decide) (by decide)
    (by decide) (by decide) (by decide) (by decide)

/-! ## `DepthAt` in binary32 arithmetic -/

theorem roundHalfEven_sub_le (x : ℚ) : |(roundHalfEven x : ℚ) - x| ≤ 1 / 2 := by
  have h1 := Int.floor_le x
  have h2 := Int.lt_floor_add_one x
  unfold roundHalfEven
  simp only []
  rw [abs_le]
  split_ifs with ha hb hc
  · constructor <;> linarith
  · push_cast; constructor <;> linarith
  · have hr : x - ⌊x⌋ = 1 / 2 := le_antisymm (not_lt.mp hb) (not_lt.mp ha)
    constructor <;> linarith
  · have hr : x - ⌊x⌋ = 1 / 2 := le_antisymm (not_lt.mp hb) (not_lt.mp ha)
    push_cast; constructor <;> linarith

theorem roundHalfEven_intCast (n : ℤ) : roundHalfEven (n : ℚ) = n := by
  unfold roundHalfEven
  simp

theorem binary32Exponent_le_of_lt_one (x : ℚ) (h0 : 0 < x) (h1 : x < 1) :
    binary32Exponent x ≤ -1 := by
  unfold binary32Exponent
  have h : Int.log 2 |x| < 0 := by
    rw [← Int.lt_zpow_iff_log_lt (by norm_num) (abs_pos.mpr h0.ne')]
    rw [abs_of_pos h0]
    simpa using h1
  exact max_le (by omega) (by norm_num)

theorem roundToBinary32_zero : roundToBinary32 0 = 0 := by
  unfold roundToBinary32
  simp [roundHalfEven]

theorem roundToBinary32_natCast (n : ℕ) (hn : n < 2 ^ 24) : roundToBinary32 (n : ℚ) = n := by
  rcases Nat.eq_zero_or_pos n with h0 | hpos
  · subst h0; simpa using roundToBinary32_zero
  · have hL : Nat.log 2 n < 24 := Nat.log_lt_of_lt_pow hpos.ne' hn
    have he : binary32Exponent (n : ℚ) = (Nat.log 2 n : ℤ) := by
      unfold binary32Exponent
      rw [abs_of_nonneg (Nat.cast_nonneg n), Int.log_natCast]
      exact max_eq_left (by omega)
    unfold roundToBinary32
    simp only [he]
    have hexp : ((Nat.log 2 n : ℤ) - 23) = -((23 - Nat.log 2 n : ℕ) : ℤ) := by omega
    rw [hexp, zpow_neg, zpow_natCast]
    have hdiv : (n : ℚ) / (2 ^ (23 - Nat.log 2 n))⁻¹ = ((n * 2 ^ (23 - Nat.log 2 n) : ℕ) : ℤ) := by
      rw [div_inv_eq_mul]; push_cast; ring
    rw [hdiv, roundHalfEven_intCast]
    push_cast
    field_simp

theorem roundToBinary32_one : roundToBinary32 1 = 1 := by
  simpa using roundToBinary32_natCast 1 (by norm_num)

theorem roundToBinary32_error (x : ℚ) (h0 : 0 ≤ x) (h1 : x ≤ 1) :
    |roundToBinary32 x - x| ≤ 1 / 2 ^ 25 := by
  rcases h0.eq_or_lt with hz | hpos
  · rw [← hz, roundToBinary32_zero]; norm_num
  rcases h1.eq_or_lt with ho | hlt
  · rw [ho, roundToBinary32_one]; norm_num
  have he := binary32Exponent_le_of_lt_one x hpos hlt
  unfold roundToBinary32
  simp only []
  set ulp : ℚ := 2 ^ (binary32Exponent x - 23) with hulp
  have hulp0 : 0 < ulp := zpow_pos (by norm_num) _
  have hulp1 : ulp ≤ 2 ^ (-24 : ℤ) := zpow_le_zpow_right₀ (by norm_num) (by omega)
  have hrw : (roundHalfEven (x / ulp) : ℚ) * ulp - x
      = ((roundHalfEven (x / ulp) : ℚ) - x / ulp) * ulp := by
    field_simp
  rw [hrw, abs_mul, abs_of_pos hulp0]
  have hr := roundHalfEven_sub_le (x / ulp)
  calc |(roundHalfEven (x / ulp) : ℚ) - x / ulp| * ulp
      ≤ 1 / 2 * 2 ^ (-24 : ℤ) := mul_le_mul hr hulp1 hulp0.le (by norm_num)
    _ = 1 / 2 ^ 25 := by norm_num

theorem roundToBinary32_inv_65535 : roundToBinary32 (1 / 65535) = 65537 / 4294967296 := by
  have he : binary32Exponent (1 / 65535) = -16 := by
    unfold binary32Exponent
    have hl : Int.log 2 |(1 / 65535 : ℚ)| = -16 := by
      apply le_antisymm
      · have : Int.log 2 |(1 / 65535 : ℚ)| < -15 := by
          rw [← Int.lt_zpow_iff_log_lt (by norm_num) (by norm_num)]
          norm_num [abs_of_pos]
        omega
      · rw [← Int.zpow_le_iff_le_log (by norm_num) (by norm_num)]
        norm_num [abs_of_pos]
    rw [hl]; decide
  unfold roundToBinary32
  simp only [he]
  have hfloor : ⌊(1 / 65535 : ℚ) / 2 ^ ((-16 : ℤ) - 23)⌋ = 8388736 := by
    rw [Int.floor_eq_iff]
    norm_num
  have hround : roundHalfEven ((1 / 65535 : ℚ) / 2 ^ ((-16 : ℤ) - 23)) = 8388736 := by
    unfold roundHalfEven
    simp only [hfloor]
    rw [if_pos (by norm_num)]
  rw [hround]
  norm_num

/-- For a sample type of at most 24 bits, `DepthAt` computes the binary32
rounding of the exact quotient. -/
theorem floatDiv_castToFloat (M d : ℕ) (hM : M < 2 ^ 24) (hd : d ≤ M) :
    floatDiv (castToFloat d) (castToFloat M) = roundToBinary32 ((d : ℚ) / M) := by
  unfold floatDiv castToFloat
  rw [roundToBinary32_natCast d (by omega), roundToBinary32_natCast M hM]

/-- For `M < 2^24` distinct samples give quotients more than `2^-24` apart. -/
theorem inv_gt_of_lt_two_pow (M : ℕ) (hM0 : 0 < M) (hM : M < 2 ^ 24) :
    (1 : ℚ) / 2 ^ 24 < 1 / M := by
  have h1 : (0 : ℚ) < M := by exact_mod_cast hM0
  have h2 : (M : ℚ) < 2 ^ 24 := by exact_mod_cast hM
  exact one_div_lt_one_div_of_lt h1 h2

theorem quotient_bounds (M d : ℕ) (hM0 : 0 < M) (hd : d ≤ M) :
    (0 : ℚ) ≤ (d : ℚ) / M ∧ (d : ℚ) / M ≤ 1 := by
  have h1 : (0 : ℚ) < M := by exact_mod_cast hM0
  have h2 : (d : ℚ) ≤ M := by exact_mod_cast hd
  exact ⟨div_nonneg (Nat.cast_nonneg d) h1.le, (div_le_one h1).mpr h2⟩

theorem quotient_gap (M d d' : ℕ) (hM0 : 0 < M) (hlt : d < d') :
    (d : ℚ) / M + 1 / M ≤ (d' : ℚ) / M := by
  have h1 : (0 : ℚ) < M := by exact_mod_cast hM0
  have h2 : (d : ℚ) + 1 ≤ d' := by exact_mod_cast hlt
  rw [← add_div]
  exact div_le_div_of_nonneg_right h2 h1.le

/-- Strict monotonicity of the rounded quotient in the sample. -/
theorem roundToBinary32_quotient_lt (M d d' : ℕ) (hM0 : 0 < M) (hM : M < 2 ^ 24)
    (hd' : d' ≤ M) (hlt : d < d') :
    roundToBinary32 ((d : ℚ) / M) < roundToBinary32 ((d' : ℚ) / M) := by
  have hq := quotient_bounds M d hM0 (by omega)
  have hq' := quotient_bounds M d' hM0 hd'
  have e := abs_le.mp (roundToBinary32_error _ hq.1 hq.2)
  have e' := abs_le.mp (roundToBinary32_error _ hq'.1 hq'.2)
  have hgap := quotient_gap M d d' hM0 hlt
  have hinv := inv_gt_of_lt_two_pow M hM0 hM
  have h25 : (1 : ℚ) / 2 ^ 25 + 1 / 2 ^ 25 = 1 / 2 ^ 24 := by norm_num
  linarith [e.2, e'.1]

/-- The two largest 32-bit samples convert to the same `float`, `2^32`. -/
theorem castToFloat_uint32_top :
    castToFloat 4294967294 = 4294967296 ∧ castToFloat 4294967295 = 4294967296 := by
  have hexp : ∀ x : ℚ, (2 : ℚ) ^ (31 : ℤ) ≤ x → x < (2 : ℚ) ^ (32 : ℤ) →
      binary32Exponent x = 31 := by
    intro x h1 h2
    have hx : 0 < x := lt_of_lt_of_le (by norm_num) h1
    unfold binary32Exponent
    rw [abs_of_pos hx]
    have hl : Int.log 2 x = 31 := by
      apply le_antisymm
      · have : Int.log 2 x < 32 := by
          rw [← Int.lt_zpow_iff_log_lt (by norm_num) hx]
          exact_mod_cast h2
        omega
      · rw [← Int.zpow_le_iff_le_log (by norm_num) hx]
        exact_mod_cast h1
    rw [hl]; decide
  have hround : ∀ x : ℚ, (16777215 : ℚ) + 1 / 2 < x → x < 16777216 →
      roundHalfEven x = 16777216 := by
    intro x h1 h2
    have hfloor : ⌊x⌋ = 16777215 := by
      rw [Int.floor_eq_iff]
      constructor
      · push_cast; linarith
      · push_cast; linarith
    unfold roundHalfEven
    simp only [hfloor]
    rw [if_neg (by push_cast; linarith), if_pos (by push_cast; linarith)]
    norm_num
  constructor
  · unfold castToFloat roundToBinary32
    simp only []
    rw [hexp _ (by norm_num) (by norm_num), hround _ (by norm_num) (by norm_num)]
    norm_num
  · unfold castToFloat roundToBinary32
    simp only []
    rw [hexp _ (by norm_num) (by norm_num), hround _ (by norm_num) (by norm_num)]
    norm_num

/-- C10 (counterexample). For the 16-bit sample type (`M = 65535`) and a pixel
whose raw sample is 1, `DepthAt` returns the binary32 number `65537 / 2^32`,
which is not the exact rational `1 / 65535`.  For the 32-bit sample type
(`M = 2^32 - 1`) and a pixel whose raw sample is `M - 1`, `DepthAt` returns 1
although the raw sample is not `M`. -/
theorem DepthAt_not_exact_quotient :
    ((⟨some [1], 1, 1⟩ : DepthImage Nat).At 0 0 = some 1 ∧
      (⟨some [1], 1, 1⟩ : DepthImage Nat).DepthAt 65535 0 0 = some (65537 / 4294967296) ∧
      ((65537 : ℚ) / 4294967296 ≠ ((1 : ℕ) : ℚ) / ((65535 : ℕ) : ℚ))) ∧
    ((⟨some [4294967294], 1, 1⟩ : DepthImage Nat).At 0 0 = some 4294967294 ∧
      (⟨some [4294967294], 1, 1⟩ : DepthImage Nat).DepthAt 4294967295 0 0 = some 1 ∧
      (4294967294 : ℕ) ≠ 4294967295) := by
  refine ⟨⟨by decide, ?_, by norm_num⟩, ⟨by decide, ?_, by decide⟩⟩
  · have hat : (⟨some [1], 1, 1⟩ : DepthImage Nat).At 0 0 = some 1 := by decide
    simp only [DepthImage.DepthAt, hat]
    rw [floatDiv_castToFloat 65535 1 (by norm_num) (by norm_num)]
    have h : ((1 : ℕ) : ℚ) / ((65535 : ℕ) : ℚ) = 1 / 65535 := by norm_num
    rw [h, roundToBinary32_inv_65535]
  · have hat : (⟨some [4294967294], 1, 1⟩ : DepthImage Nat).At 0 0 = some 4294967294 := by
      decide
    simp only [DepthImage.DepthAt, hat]
    rw [castToFloat_uint32_top.1, castToFloat_uint32_top.2]
    unfold floatDiv
    rw [div_self (by norm_num), roundToBinary32_one]

/-- C10 (amended). For an unsigned sample type with maximum `M < 2^24` (8- and
16-bit samples, the default `uint16_t` among them) and a pixel where `At`
returns the raw sample `d ≤ M`: `DepthAt` returns the binary32 rounding `x` of
the exact quotient `d / M`, within `2^-25` of it; `0 ≤ x ≤ 1`; `x = 0` exactly
when `d = 0`; `x = 1` exactly when `d = M`; and a pixel with a larger raw
sample has a strictly larger `DepthAt`. -/
theorem DepthAt_rounded_quotient (M : ℕ) (hM0 : 0 < M) (hM : M < 2 ^ 24)
    (img : DepthImage Nat) (row col : Int) (d : ℕ)
    (hat : img.At row col = some d) (hd : d ≤ M) :
    ∃ x : ℚ, img.DepthAt M row col = some x ∧
      x = roundToBinary32 ((d : ℚ) / M) ∧ |x - (d : ℚ) / M| ≤ 1 / 2 ^ 25 ∧
      0 ≤ x ∧ x ≤ 1 ∧ (x = 0 ↔ d = 0) ∧ (x = 1 ↔ d = M) ∧
      (∀ (img' : DepthImage Nat) (row' col' : Int) (d' : ℕ),
        img'.At row' col' = some d' → d' ≤ M → d < d' →
        ∃ x' : ℚ, img'.DepthAt M row' col' = some x' ∧ x < x') := by
  have hMq : (0 : ℚ) < M := by exact_mod_cast hM0
  have hq := quotient_bounds M d hM0 hd
  have herr := roundToBinary32_error _ hq.1 hq.2
  have hzero : roundToBinary32 (((0 : ℕ) : ℚ) / M) = 0 := by
    simpa using roundToBinary32_zero
  have hone : roundToBinary32 (((M : ℕ) : ℚ) / M) = 1 := by
    rw [div_self hMq.ne']; exact roundToBinary32_one
  refine ⟨roundToBinary32 ((d : ℚ) / M), ?_, rfl, herr, ?_, ?_, ?_, ?_, ?_⟩
  · simp only [DepthImage.DepthAt, hat]
    rw [floatDiv_castToFloat M d hM hd]
  · rcases Nat.eq_zero_or_pos d with h0 | hpos
    · subst h0; rw [hzero]
    · have := roundToBinary32_quotient_lt M 0 d hM0 hM hd hpos
      rw [hzero] at this
      exact this.le
  · rcases Nat.lt_or_ge d M with hlt | hge
    · have := roundToBinary32_quotient_lt M d M hM0 hM le_rfl hlt
      rw [hone] at this
      exact this.le
    · have : d = M := le_antisymm hd hge
      subst this; rw [hone]
  · constructor
    · intro hx
      by_contra hne
      have := roundToBinary32_quotient_lt M 0 d hM0 hM hd (Nat.pos_of_ne_zero hne)
      rw [hzero, hx] at this
      exact lt_irrefl _ this
    · intro h0
      subst h0; exact hzero
  · constructor
    · intro hx
      by_contra hne
      have hlt : d < M := lt_of_le_of_ne hd hne
      have := roundToBinary32_quotient_lt M d M hM0 hM le_rfl hlt
      rw [hone, hx] at this
      exact lt_irrefl _ this
    · intro h0
      subst h0; exact hone
  · intro img' row' col' d' hat' hd' hlt
    refine ⟨roundToBinary32 ((d' : ℚ) / M), ?_, roundToBinary32_quotient_lt M d d' hM0 hM hd' hlt⟩
    simp only [DepthImage.DepthAt, hat']
    rw [floatDiv_castToFloat M d' hM hd']

theorem DepthAt_rounded_quotient_witness :
    ∃ x : ℚ, (⟨some [1, 65535], 2, 1⟩ : DepthImage Nat).DepthAt 65535 0 0 = some x ∧
      x = roundToBinary32 (((1 : ℕ) : ℚ) / ((65535 : ℕ) : ℚ)) ∧
      |x - ((1 : ℕ) : ℚ) / ((65535 : ℕ) : ℚ)| ≤ 1 / 2 ^ 25 ∧
      0 ≤ x ∧ x ≤ 1 ∧ (x = 0 ↔ (1 : ℕ) = 0) ∧ (x = 1 ↔ (1 : ℕ) = 65535) ∧
      (∀ (img' : DepthImage Nat) (row' col' : Int) (d' : ℕ),
        img'.At row' col' = some d' → d' ≤ 65535 → 1 < d' →
        ∃ x' : ℚ, img'.DepthAt 65535 row' col' = some x' ∧ x < x') :=
  DepthAt_rounded_quotient 65535 (by decide) (by decide)
    (⟨some [1, 65535], 2, 1⟩ : DepthImage Nat) 0 0 1 (by decide) (by decide)

/-! ## Voxel update of the projection integrator -/

theorem clamp_of_band (x t : ℚ) (h1 : -t ≤ x) (h2 : x ≤ t) : clamp x (-t) t = x := by
  unfold clamp
  rw [if_neg (not_lt.mpr h1), if_neg (not_lt.mpr h2)]

/-- Inside the truncation band the voxel is written with the running weighted average. -/
theorem voxelUpdate_of_band (cfg : IntegratorConfig) (v : Voxel) (d z : ℚ)
    (h1 : -(cfg.truncationDistance d) ≤ d - z) (h2 : d - z ≤ cfg.truncationDistance d) :
    voxelUpdate cfg v (some (d, z)) =
      some { distance := (v.distance * v.weight
                + clamp (d - z) (-(cfg.truncationDistance d)) (cfg.truncationDistance d)
                  * cfg.incrementWeight)
              / min (v.weight + cfg.incrementWeight) cfg.maxWeight,
             weight := min (v.weight + cfg.incrementWeight) cfg.maxWeight } := by
  simp only [voxelUpdate]
  rw [if_neg (not_lt.mpr h2), if_neg (not_lt.mpr h1)]

/-- The weight stored by an in-band update is positive and at most `maxWeight`. -/
theorem integrateVoxel_weight_of_band (cfg : IntegratorConfig) (v : Voxel) (d z : ℚ)
    (hw : 0 ≤ v.weight) (hinc : 0 < cfg.incrementWeight) (hmax : 0 < cfg.maxWeight)
    (h1 : -(cfg.truncationDistance d) ≤ d - z) (h2 : d - z ≤ cfg.truncationDistance d) :
    0 < (integrateVoxel cfg v (some (d, z))).weight ∧
      (integrateVoxel cfg v (some (d, z))).weight ≤ cfg.maxWeight := by
  simp only [integrateVoxel, voxelUpdate_of_band cfg v d z h1 h2, Option.getD_some]
  exact ⟨lt_min (by linarith) hmax, min_le_right _ _⟩

/-- After a non-empty sequence of in-band updates the weight is positive and at
most `maxWeight`. -/
theorem foldl_integrateVoxel_weight (cfg : IntegratorConfig)
    (hinc : 0 < cfg.incrementWeight) (hmax : 0 < cfg.maxWeight) :
    ∀ (observations : List (ℚ × ℚ)) (v : Voxel), 0 ≤ v.weight → observations ≠ [] →
      (∀ o ∈ observations, -(cfg.truncationDistance o.1) ≤ o.1 - o.2 ∧
        o.1 - o.2 ≤ cfg.truncationDistance o.1) →
      0 < (observations.foldl (fun u o => integrateVoxel cfg u (some o)) v).weight ∧
        (observations.foldl (fun u o => integrateVoxel cfg u (some o)) v).weight
          ≤ cfg.maxWeight := by
  intro observations
  induction observations with
  | nil => intro v _ hne; exact absurd rfl hne
  | cons o rest ih =>
    intro v hw _ hband
    have ho := hband o (List.mem_cons_self o rest)
    have hstep := integrateVoxel_weight_of_band cfg v o.1 o.2 hw hinc hmax ho.1 ho.2
    rw [List.foldl_cons]
    by_cases hrest : rest = []
    · subst hrest
      exact hstep
    · exact ih (integrateVoxel cfg v (some o)) hstep.1.le hrest
        (fun o' ho' => hband o' (List.mem_cons_of_mem o ho'))

/-- Whatever the observation, a weight in `[0, maxWeight]` stays there. -/
theorem integrateVoxel_weight_invariant (cfg : IntegratorConfig)
    (hinc : 0 < cfg.incrementWeight) (hmax : 0 < cfg.maxWeight)
    (v : Voxel) (obs : Option (ℚ × ℚ)) (h0 : 0 ≤ v.weight) (h1 : v.weight ≤ cfg.maxWeight) :
    0 ≤ (integrateVoxel cfg v obs).weight ∧ (integrateVoxel cfg v obs).weight ≤ cfg.maxWeight := by
  cases obs with
  | none => exact ⟨h0, h1⟩
  | some o =>
    obtain ⟨d, z⟩ := o
    simp only [integrateVoxel, voxelUpdate]
    split_ifs with ha hb hc
    · exact ⟨le_refl _, hmax.le⟩
    · exact ⟨h0, h1⟩
    · exact ⟨h0, h1⟩
    · exact ⟨le_min (by linarith) hmax.le, min_le_right _ _⟩

theorem foldl_integrateVoxel_weight_invariant (cfg : IntegratorConfig)
    (hinc : 0 < cfg.incrementWeight) (hmax : 0 < cfg.maxWeight) :
    ∀ (observations : List (Option (ℚ × ℚ))) (v : Voxel),
      0 ≤ v.weight → v.weight ≤ cfg.maxWeight →
      0 ≤ (observations.foldl (integrateVoxel cfg) v).weight ∧
        (observations.foldl (integrateVoxel cfg) v).weight ≤ cfg.maxWeight := by
  intro observations
  induction observations with
  | nil => intro v h0 h1; exact ⟨h0, h1⟩
  | cons o rest ih =>
    intro v h0 h1
    have hstep := integrateVoxel_weight_invariant cfg hinc hmax v o h0 h1
    rw [List.foldl_cons]
    exact ih _ hstep.1 hstep.2

/-- C3. For a voxel with `oldWeight ≥ 0`, with `incrementWeight > 0` and
`maxWeight > 0`, and an observation whose signed distance
`s = sampledDepth - projectedVoxelDepth` lies in the truncation band
`-truncationDistance ≤ s ≤ truncationDistance`: the update writes the voxel,
stores `newWeight = min(oldWeight + incrementWeight, maxWeight)` and
`newDistance = (oldDistance * oldWeight + clamp(s, -truncationDistance,
truncationDistance) * incrementWeight) / newWeight`, and the stored weight is
positive and at most `maxWeight`; the same bounds hold after every non-empty
sequence of in-band updates; and over every sequence of observations of any
kind a weight in `[0, maxWeight]` never leaves `[0, maxWeight]`. -/
theorem integrateVoxel_running_average (cfg : IntegratorConfig) (v : Voxel) (d z : ℚ)
    (hw : 0 ≤ v.weight) (hinc : 0 < cfg.incrementWeight) (hmax : 0 < cfg.maxWeight)
    (hband : -(cfg.truncationDistance d) ≤ d - z ∧ d - z ≤ cfg.truncationDistance d) :
    (voxelUpdate cfg v (some (d, z)) = some (integrateVoxel cfg v (some (d, z))) ∧
      (integrateVoxel cfg v (some (d, z))).weight
        = min (v.weight + cfg.incrementWeight) cfg.maxWeight ∧
      (integrateVoxel cfg v (some (d, z))).distance
        = (v.distance * v.weight
            + clamp (d - z) (-(cfg.truncationDistance d)) (cfg.truncationDistance d)
              * cfg.incrementWeight)
          / (integrateVoxel cfg v (some (d, z))).weight ∧
      0 < (integrateVoxel cfg v (some (d, z))).weight ∧
      (integrateVoxel cfg v (some (d, z))).weight ≤ cfg.maxWeight) ∧
    (∀ (observations : List (ℚ × ℚ)) (u : Voxel), 0 ≤ u.weight → observations ≠ [] →
      (∀ o ∈ observations, -(cfg.truncationDistance o.1) ≤ o.1 - o.2 ∧
        o.1 - o.2 ≤ cfg.truncationDistance o.1) →
      0 < (observations.foldl (fun u o => integrateVoxel cfg u (some o)) u).weight ∧
        (observations.foldl (fun u o => integrateVoxel cfg u (some o)) u).weight
          ≤ cfg.maxWeight) ∧
    (∀ (observations : List (Option (ℚ × ℚ))) (u : Voxel),
      0 ≤ u.weight → u.weight ≤ cfg.maxWeight →
      0 ≤ (observations.foldl (integrateVoxel cfg) u).weight ∧
        (observations.foldl (integrateVoxel cfg) u).weight ≤ cfg.maxWeight) := by
  refine ⟨⟨?_, ?_, ?_, ?_⟩, foldl_integrateVoxel_weight cfg hinc hmax,
    foldl_integrateVoxel_weight_invariant cfg hinc hmax⟩
  · simp only [integrateVoxel, voxelUpdate_of_band cfg v d z hband.1 hband.2, Option.getD_some]
  · simp only [integrateVoxel, voxelUpdate_of_band cfg v d z hband.1 hband.2, Option.getD_some]
  · simp only [integrateVoxel, voxelUpdate_of_band cfg v d z hband.1 hband.2, Option.getD_some]
  · exact integrateVoxel_weight_of_band cfg v d z hw hinc hmax hband.1 hband.2

theorem integrateVoxel_running_average_witness :
    ((integrateVoxel ⟨fun _ => 1, 2, 3, true, 0⟩ ⟨1 / 2, 2⟩ (some (5, 5 + 1 / 4))).weight = 3 ∧
      (integrateVoxel ⟨fun _ => 1, 2, 3, true, 0⟩ ⟨1 / 2, 2⟩ (some (5, 5 + 1 / 4))).distance
        = 1 / 6) ∧
    (0 < ([((5 : ℚ), (5 : ℚ) + 1 / 4), (4, 4)].foldl
      (fun u o => integrateVoxel ⟨fun _ => 1, 2, 3, true, 0⟩ u (some o)) ⟨1 / 2, 2⟩).weight) := by
  have h := integrateVoxel_running_average ⟨fun _ => 1, 2, 3, true, 0⟩ ⟨1 / 2, 2⟩ 5 (5 + 1 / 4)
    (by norm_num) (by norm_num) (by norm_num) (by norm_num)
  refine ⟨⟨?_, ?_⟩, ?_⟩
  · rw [h.1.2.1]; norm_num
  · rw [h.1.2.2.1, h.1.2.1]; norm_num [clamp]
  · exact (h.2.1 [((5 : ℚ), (5 : ℚ) + 1 / 4), (4, 4)] ⟨1 / 2, 2⟩ (by norm_num) (by simp)
      (by intro o ho; simp at ho; rcases ho with rfl | rfl <;> norm_num)).1

/-! ## Chunk map and integration pass -/

theorem findChunk_putChunk_same (m : List (ChunkIndex × Chunk)) (idx : ChunkIndex) (c : Chunk) :
    ChunkStore.findChunk (ChunkStore.putChunk m idx c) idx = some c := by
  induction m with
  | nil => simp [ChunkStore.putChunk, ChunkStore.findChunk]
  | cons p rest ih =>
    obtain ⟨j, d⟩ := p
    by_cases hj : j = idx
    · simp [ChunkStore.putChunk, ChunkStore.findChunk, hj]
    · simp [ChunkStore.putChunk, ChunkStore.findChunk, hj, ih]

theorem findChunk_putChunk_other (m : List (ChunkIndex × Chunk)) (idx j : ChunkIndex) (c : Chunk)
    (hne : idx ≠ j) :
    ChunkStore.findChunk (ChunkStore.putChunk m idx c) j = ChunkStore.findChunk m j := by
  induction m with
  | nil => simp [ChunkStore.putChunk, ChunkStore.findChunk, hne]
  | cons p rest ih =>
    obtain ⟨i, d⟩ := p
    by_cases hi : i = idx
    · subst hi
      simp [ChunkStore.putChunk, ChunkStore.findChunk, hne]
    · by_cases hij : i = j
      · subst hij
        simp [ChunkStore.putChunk, ChunkStore.findChunk, hi]
      · simp [ChunkStore.putChunk, ChunkStore.findChunk, hi, hij, ih]

/-- Voxel `k` after the pass over a chunk is voxel `k` after its own update. -/
theorem integrateVoxels_getElem (cfg : IntegratorConfig) (obs : Nat → Option (ℚ × ℚ)) :
    ∀ (vs : List Voxel) (k0 k : Nat),
      (integrateVoxels cfg obs k0 vs).1[k]?
        = (vs[k]?).map (fun v => integrateVoxel cfg v (obs (k0 + k))) := by
  intro vs
  induction vs with
  | nil => intro k0 k; simp [integrateVoxels]
  | cons v rest ih =>
    intro k0 k
    cases k with
    | zero =>
      simp only [integrateVoxels, integrateVoxel]
      cases h : voxelUpdate cfg v (obs k0) <;> simp [h]
    | succ k =>
      have hk : k0 + (k + 1) = k0 + 1 + k := by omega
      simp only [integrateVoxels]
      cases voxelUpdate cfg v (obs k0) <;> simp [ih, hk]

theorem integrateChunk_chunkDims (cfg : IntegratorConfig) (frame : FrameView)
    (s : ChunkStore) (idx : ChunkIndex) :
    (integrateChunk cfg frame s idx).chunkDims = s.chunkDims := by
  simp only [integrateChunk, ChunkStore.GetOrCreate]
  cases ChunkStore.findChunk s.chunks idx <;> rfl

theorem freshChunk_congr (s s' : ChunkStore) (h : s'.chunkDims = s.chunkDims) :
    s'.freshChunk = s.freshChunk := by
  unfold ChunkStore.freshChunk
  rw [h]

/-- The chunk at `idx` after integrating candidate `idx`: the voxels of the
chunk found there, or of a fresh chunk, after their updates. -/
theorem TryGet_integrateChunk_same (cfg : IntegratorConfig) (frame : FrameView)
    (s : ChunkStore) (idx : ChunkIndex) :
    (integrateChunk cfg frame s idx).TryGet idx
      = some { voxels := (integrateVoxels cfg (frame.observe idx) 0
                  ((s.TryGet idx).getD s.freshChunk).voxels).1,
               dirty := ((s.TryGet idx).getD s.freshChunk).dirty ||
                  (integrateVoxels cfg (frame.observe idx) 0
                    ((s.TryGet idx).getD s.freshChunk).voxels).2 } := by
  unfold ChunkStore.TryGet
  simp only [integrateChunk, ChunkStore.GetOrCreate]
  cases hf : ChunkStore.findChunk s.chunks idx with
  | none =>
    simp only [Option.getD_none]
    exact findChunk_putChunk_same _ _ _
  | some c =>
    simp only [Option.getD_some]
    exact findChunk_putChunk_same _ _ _

/-- Integrating another candidate leaves the chunk at `j` as it was. -/
theorem TryGet_integrateChunk_other (cfg : IntegratorConfig) (frame : FrameView)
    (s : ChunkStore) (idx j : ChunkIndex) (hne : idx ≠ j) :
    (integrateChunk cfg frame s idx).TryGet j = s.TryGet j := by
  unfold ChunkStore.TryGet
  simp only [integrateChunk, ChunkStore.GetOrCreate]
  cases hf : ChunkStore.findChunk s.chunks idx with
  | none =>
    simp only []
    rw [findChunk_putChunk_other _ _ _ _ hne, findChunk_putChunk_other _ _ _ _ hne]
  | some c =>
    simp only []
    rw [findChunk_putChunk_other _ _ _ _ hne]

theorem TryGet_foldl_integrateChunk_not_mem (cfg : IntegratorConfig) (frame : FrameView)
    (j : ChunkIndex) :
    ∀ (l : List ChunkIndex) (s : ChunkStore), j ∉ l →
      (l.foldl (integrateChunk cfg frame) s).TryGet j = s.TryGet j := by
  intro l
  induction l with
  | nil => intro s _; rfl
  | cons i rest ih =>
    intro s hj
    rw [List.foldl_cons, ih _ (fun h => hj (List.mem_cons_of_mem i h))]
    exact TryGet_integrateChunk_other cfg frame s i j (fun h => hj (h ▸ List.mem_cons_self i rest))

/-- The chunk at a candidate index after the pass over a duplicate-free list of
candidates. -/
theorem TryGet_foldl_integrateChunk_mem (cfg : IntegratorConfig) (frame : FrameView)
    (idx : ChunkIndex) :
    ∀ (l : List ChunkIndex) (s : ChunkStore), l.Nodup → idx ∈ l →
      (l.foldl (integrateChunk cfg frame) s).TryGet idx
        = some { voxels := (integrateVoxels cfg (frame.observe idx) 0
                    ((s.TryGet idx).getD s.freshChunk).voxels).1,
                 dirty := ((s.TryGet idx).getD s.freshChunk).dirty ||
                    (integrateVoxels cfg (frame.observe idx) 0
                      ((s.TryGet idx).getD s.freshChunk).voxels).2 } := by
  intro l
  induction l with
  | nil => intro s _ hmem; exact absurd hmem (List.not_mem_nil idx)
  | cons i rest ih =>
    intro s hnd hmem
    rw [List.foldl_cons]
    have hnd' := List.nodup_cons.mp hnd
    by_cases hi : i = idx
    · subst hi
      rw [TryGet_foldl_integrateChunk_not_mem cfg frame i rest _ hnd'.1]
      exact TryGet_integrateChunk_same cfg frame s i
    · have hmem' : idx ∈ rest := by
        rcases List.mem_cons.mp hmem with h | h
        · exact absurd h.symm hi
        · exact h
      rw [ih _ hnd'.2 hmem', TryGet_integrateChunk_other cfg frame s i idx hi,
        freshChunk_congr s _ (integrateChunk_chunkDims cfg frame s i)]

/-- The chunk at `idx` after `IntegrateDepthFrame`, for a candidate index that
was allocated before the pass. -/
theorem TryGet_IntegrateDepthFrame_of_allocated (cfg : IntegratorConfig) (frame : FrameView)
    (s : ChunkStore) (idx : ChunkIndex) (c : Chunk)
    (hcand : idx ∈ frame.candidates) (hchunk : s.TryGet idx = some c) :
    (IntegrateDepthFrame cfg frame s).TryGet idx
      = some { voxels := (integrateVoxels cfg (frame.observe idx) 0 c.voxels).1,
               dirty := c.dirty || (integrateVoxels cfg (frame.observe idx) 0 c.voxels).2 } := by
  have h := TryGet_foldl_integrateChunk_mem cfg frame idx frame.candidates.dedup
    { s with latest := [] } (List.nodup_dedup _) (List.mem_dedup.mpr hcand)
  have hc : ChunkStore.TryGet { s with latest := [] } idx = some c := hchunk
  rw [hc] at h
  exact h

/-- C4 (counterexample). Carving enabled with `carvingDistance = 10` and a
truncation band of width 1; voxel 1 of the allocated candidate chunk has weight
2; the frame samples depth 5 where the voxel lies at depth 3, free space beyond
the band by 1.  After `IntegrateDepthFrame` the voxel is the voxel it was, with
weight 2, not 0. -/
theorem carving_needs_minimum_excess :
    ((⟨fun _ => 1, 1, 3, true, 10⟩ : IntegratorConfig).useCarving = true ∧
      (⟨fun _ => 1, 1, 3, true, 10⟩ : IntegratorConfig).truncationDistance 5 < 5 - 3) ∧
    ∃ c' : Chunk,
      (IntegrateDepthFrame ⟨fun _ => 1, 1, 3, true, 10⟩
          ⟨[(0, 0, 0)], fun _ k => if k = 1 then some (5, 3) else none⟩
          ⟨(1, 1, 2), 1 / 10, [((0, 0, 0), ⟨[⟨0, 0⟩, ⟨1 / 4, 2⟩], false⟩)], []⟩).TryGet (0, 0, 0)
        = some c' ∧
      c'.voxels[1]? = some ⟨1 / 4, 2⟩ ∧ (⟨1 / 4, 2⟩ : Voxel).weight ≠ 0 := by
  refine ⟨⟨rfl, by norm_num⟩, _, TryGet_IntegrateDepthFrame_of_allocated _ _ _ (0, 0, 0)
    ⟨[⟨0, 0⟩, ⟨1 / 4, 2⟩], false⟩ (by simp) (by simp [ChunkStore.TryGet, ChunkStore.findChunk]),
    ?_, by norm_num⟩
  simp only [integrateVoxels_getElem]
  norm_num [integrateVoxel, voxelUpdate]

/-- C4 (amended). Carving: let voxel `k` of an allocated candidate chunk have
weight `> 0`, and let the frame see past that voxel, free space beyond the
truncation band by at least `carvingDistance`:
`sampledDepth - projectedVoxelDepth > truncationDistance` and
`sampledDepth - projectedVoxelDepth - truncationDistance ≥ carvingDistance`.
After `IntegrateDepthFrame` the voxel has `weight = 0` when carving is enabled,
and is the voxel it was when carving is disabled. -/
theorem carving_resets_weight (cfg : IntegratorConfig) (frame : FrameView) (s : ChunkStore)
    (idx : ChunkIndex) (k : Nat) (c : Chunk) (v : Voxel) (d z : ℚ)
    (hcand : idx ∈ frame.candidates)
    (hchunk : s.TryGet idx = some c) (hvoxel : c.voxels[k]? = some v)
    (hweight : 0 < v.weight)
    (hobs : frame.observe idx k = some (d, z))
    (hfree : cfg.truncationDistance d < d - z)
    (hexcess : cfg.carvingDistance ≤ d - z - cfg.truncationDistance d) :
    ∃ (c' : Chunk) (v' : Voxel),
      (IntegrateDepthFrame cfg frame s).TryGet idx = some c' ∧ c'.voxels[k]? = some v' ∧
      (cfg.useCarving = true → v'.weight = 0) ∧
      (cfg.useCarving = false → v' = v) := by
  refine ⟨_, integrateVoxel cfg v (some (d, z)),
    TryGet_IntegrateDepthFrame_of_allocated cfg frame s idx c hcand hchunk, ?_, ?_, ?_⟩
  · simp only [integrateVoxels_getElem, hvoxel, Option.map_some', Nat.zero_add, hobs]
  · intro hcarve
    have hne : v.weight ≠ 0 := ne_of_gt hweight
    simp only [integrateVoxel, voxelUpdate]
    rw [if_pos hfree, if_pos ⟨hcarve, hne, hexcess⟩]
    rfl
  · intro hcarve
    simp only [integrateVoxel, voxelUpdate]
    rw [if_pos hfree, if_neg (fun h => by rw [hcarve] at h; exact absurd h.1 (by decide))]
    rfl

theorem carving_resets_weight_witness :
    ∃ (c' : Chunk) (v' : Voxel),
      (IntegrateDepthFrame ⟨fun _ => 1, 1, 3, true, 1 / 2⟩
          ⟨[(0, 0, 0)], fun _ k => if k = 1 then some (5, 3) else none⟩
          ⟨(1, 1, 2), 1 / 10, [((0, 0, 0), ⟨[⟨0, 0⟩, ⟨1 / 4, 2⟩], false⟩)], []⟩).TryGet (0, 0, 0)
        = some c' ∧
      c'.voxels[1]? = some v' ∧
      (true = true → v'.weight = 0) ∧ (true = false → v' = ⟨1 / 4, 2⟩) :=
  carving_resets_weight ⟨fun _ => 1, 1, 3, true, 1 / 2⟩
    ⟨[(0, 0, 0)], fun _ k => if k = 1 then some (5, 3) else none⟩
    ⟨(1, 1, 2), 1 / 10, [((0, 0, 0), ⟨[⟨0, 0⟩, ⟨1 / 4, 2⟩], false⟩)], []⟩
    (0, 0, 0) 1 ⟨[⟨0, 0⟩, ⟨1 / 4, 2⟩], false⟩ ⟨1 / 4, 2⟩ 5 3
    (by simp) (by simp [ChunkStore.TryGet, ChunkStore.findChunk]) (by simp) (by norm_num)
    (by simp) (by norm_num) (by norm_num)

/-- C5. Reset: for every store, after `Reset()` both `ListAllocatedChunkBounds()`
and `ListLatestChunkBounds()` are the empty sequence and the store is the store
freshly created with the same chunk dimensions and resolution.  For every
frame, `IntegrateDepthFrame` after the `Reset()` gives the same store as
`IntegrateDepthFrame` into the fresh store, and nothing of the store before the
`Reset()` is left in it: the chunk at a candidate index is a fresh chunk after
the updates of the frame, voxel `k` being the never-observed voxel after its
own update, and no chunk is allocated at any other index. -/
theorem reset_then_integrate_eq_fresh (s : ChunkStore) :
    (s.Reset.ListAllocatedChunkBounds = [] ∧ s.Reset.ListLatestChunkBounds = [] ∧
      s.Reset = ChunkStore.create s.chunkDims s.resolution) ∧
    ∀ (cfg : IntegratorConfig) (frame : FrameView),
      IntegrateDepthFrame cfg frame s.Reset
        = IntegrateDepthFrame cfg frame (ChunkStore.create s.chunkDims s.resolution) ∧
      (∀ idx : ChunkIndex,
        (IntegrateDepthFrame cfg frame s.Reset).TryGet idx =
          if idx ∈ frame.candidates then
            some { voxels :=
                     (integrateVoxels cfg (frame.observe idx) 0
                       (ChunkStore.create s.chunkDims s.resolution).freshChunk.voxels).1,
                   dirty :=
                     (integrateVoxels cfg (frame.observe idx) 0
                       (ChunkStore.create s.chunkDims s.resolution).freshChunk.voxels).2 }
          else none) ∧
      (∀ (idx : ChunkIndex) (k : Nat), idx ∈ frame.candidates →
        k < s.chunkDims.1 * s.chunkDims.2.1 * s.chunkDims.2.2 →
        ∃ c : Chunk, (IntegrateDepthFrame cfg frame s.Reset).TryGet idx = some c ∧
          c.voxels[k]? = some (integrateVoxel cfg ⟨0, 0⟩ (frame.observe idx k))) := by
  refine ⟨⟨rfl, rfl, rfl⟩, fun cfg frame => ?_⟩
  have hmem : ∀ idx : ChunkIndex, idx ∈ frame.candidates →
      (IntegrateDepthFrame cfg frame s.Reset).TryGet idx =
        some { voxels :=
                 (integrateVoxels cfg (frame.observe idx) 0
                   (ChunkStore.create s.chunkDims s.resolution).freshChunk.voxels).1,
               dirty :=
                 (integrateVoxels cfg (frame.observe idx) 0
                   (ChunkStore.create s.chunkDims s.resolution).freshChunk.voxels).2 } := by
    intro idx hcand
    have h := TryGet_foldl_integrateChunk_mem cfg frame idx frame.candidates.dedup
      { s.Reset with latest := [] } (List.nodup_dedup _) (List.mem_dedup.mpr hcand)
    have hnone : ChunkStore.TryGet { s.Reset with latest := [] } idx = none := rfl
    rw [hnone] at h
    simpa [ChunkStore.freshChunk, ChunkStore.create, ChunkStore.Reset, ChunkStore.Clear,
      IntegrateDepthFrame] using h
  refine ⟨rfl, ?_, ?_⟩
  · intro idx
    by_cases hcand : idx ∈ frame.candidates
    · rw [if_pos hcand]
      exact hmem idx hcand
    · rw [if_neg hcand]
      have h := TryGet_foldl_integrateChunk_not_mem cfg frame idx frame.candidates.dedup
        { s.Reset with latest := [] } (fun h => hcand (List.mem_dedup.mp h))
      exact h
  · intro idx k hcand hk
    refine ⟨_, hmem idx hcand, ?_⟩
    simp only [integrateVoxels_getElem, ChunkStore.freshChunk, ChunkStore.create, Nat.zero_add]
    rw [List.getElem?_replicate, if_pos hk]
    rfl

end chisel

namespace chisel_ros

/-! ## Near and far plane distances of the server -/

/-- C7. For every server state and all distances `n`, `f`: after
`SetNearPlaneDist(n)` and `SetFarPlaneDist(f)` in either order,
`GetNearPlaneDist()` returns `n`, `GetFarPlaneDist()` returns `f` and the
member `cam` is the previous camera model after `setFarPlane(f)`, and both
orders end in the same server state;
`SetFarPlaneDist` leaves `nearPlaneDist` unchanged and `SetNearPlaneDist`
leaves `farPlaneDist` and `cam` unchanged. -/
theorem near_far_plane_independent {Cam Dist : Type} (setFarPlane : Cam → Dist → Cam)
    (s : ChiselServer Cam Dist) (n f : Dist) :
    ((ChiselServer.SetFarPlaneDist setFarPlane (s.SetNearPlaneDist n) f).GetNearPlaneDist = n ∧
      (ChiselServer.SetFarPlaneDist setFarPlane (s.SetNearPlaneDist n) f).GetFarPlaneDist = f ∧
      (ChiselServer.SetFarPlaneDist setFarPlane (s.SetNearPlaneDist n) f).cam
        = setFarPlane s.cam f) ∧
    (((ChiselServer.SetFarPlaneDist setFarPlane s f).SetNearPlaneDist n).GetNearPlaneDist = n ∧
      ((ChiselServer.SetFarPlaneDist setFarPlane s f).SetNearPlaneDist n).GetFarPlaneDist = f ∧
      ((ChiselServer.SetFarPlaneDist setFarPlane s f).SetNearPlaneDist n).cam
        = setFarPlane s.cam f) ∧
    ChiselServer.SetFarPlaneDist setFarPlane (s.SetNearPlaneDist n) f
      = (ChiselServer.SetFarPlaneDist setFarPlane s f).SetNearPlaneDist n ∧
    (ChiselServer.SetFarPlaneDist setFarPlane s f).nearPlaneDist = s.nearPlaneDist ∧
    ((s.SetNearPlaneDist n).farPlaneDist = s.farPlaneDist ∧ (s.SetNearPlaneDist n).cam = s.cam) :=
  ⟨⟨rfl, rfl, rfl⟩, ⟨rfl, rfl, rfl⟩, rfl, rfl, rfl, rfl⟩

end chisel_ros
